import Mathlib

/-!
Verification of the `awesome_analyzer` repository: a two-stage pipeline that
scrapes GitHub repository links from a webpage (`src/awesome_scraper.py`),
fetches popularity metrics with a consecutive-failure budget and a rate-limit
back-off, persists them as a JSON snapshot, and later loads, filters, sorts
and displays them (`src/awesome_analyzer.py`).

Python strings are embedded as `List Char`; Python integers as `Int` or `Nat`;
`None`-able arguments as `Option`.  Library calls (`urllib.parse.urlparse`,
`json.dump`/`json.load`, `pandas`) are embedded from their documented
semantics, each noted at its definition.
-/

/-- `String.toList` shorthand used throughout to write character lists. -/
def chars (s : String) : List Char := s.toList

/-! ## Embedding of `urllib.parse.urlparse` (CPython `urllib/parse.py`)

The scraper calls `urlparse(url)` and reads `.netloc` and `.path`.  The
embedding follows CPython's `urlsplit` + params split of `urlparse`:
removal of tab/CR/LF bytes, scheme split at the first `:` when the prefix is
a valid scheme, netloc extraction after a leading `//` up to `/`, `?` or `#`,
fragment split at the first `#`, query split at the first `?`, and params
split at the `;` in the last path segment for schemes that use params.
The embedding omits `urlsplit`'s IPv6-bracket and netloc-NFKC validation
(which raise `ValueError` instead of returning a result). -/

/-- Characters CPython strips from URLs before parsing
(`_UNSAFE_URL_BYTES_TO_REMOVE = ["\t", "\r", "\n"]`). -/
def removeUnsafe (l : List Char) : List Char :=
  l.filter (fun c => !(c = '\t' || c = '\r' || c = '\n'))

/-- CPython `scheme_chars`: letters, digits, `+`, `-`, `.`. -/
def isSchemeChar (c : Char) : Bool :=
  c.isAlphanum || c = '+' || c = '-' || c = '.'

/-- ASCII lowercase, as Python `str.lower` acts on scheme characters. -/
def lowerChar (c : Char) : Char := c.toLower

/-- Scheme split of `urlsplit`: at the first `:` when it is at index `> 0`,
the first character is an ASCII letter, and the rest of the prefix consists
of scheme characters; the scheme is lowercased. -/
def schemeSplit (l : List Char) : List Char × List Char :=
  match l.findIdx? (fun c => c = ':') with
  | some i =>
    if 0 < i && (l.headD ' ').isAlpha && ((l.take i).drop 1).all isSchemeChar
    then ((l.take i).map lowerChar, l.drop (i + 1))
    else ([], l)
  | none => ([], l)

/-- `_splitnetloc` (already past the leading `//`): the netloc runs until the
first `/`, `?` or `#`. -/
def splitnetloc (l : List Char) : List Char × List Char :=
  let n := l.takeWhile (fun c => !(c = '/' || c = '?' || c = '#'))
  (n, l.drop n.length)

/-- Split at the first occurrence of `c` (Python `str.split(c, 1)`),
assuming `c` occurs. -/
def splitFirst (c : Char) (l : List Char) : List Char × List Char :=
  (l.takeWhile (fun x => !(x = c)), (l.dropWhile (fun x => !(x = c))).drop 1)

/-- CPython `uses_params`: schemes for which `urlparse` splits params. -/
def usesParams : List (List Char) :=
  [[], chars "ftp", chars "hdl", chars "prospero", chars "http", chars "imap",
   chars "https", chars "shttp", chars "rtsp", chars "rtsps", chars "rtspu",
   chars "sip", chars "sips", chars "mms", chars "sftp", chars "tel"]

/-- `_splitparams`: split at the `;` located in the last path segment. -/
def splitparams (l : List Char) : List Char × List Char :=
  if l.contains '/' then
    let j := l.length - 1 - l.reverse.findIdx (fun c => c = '/')
    match (l.drop j).findIdx? (fun c => c = ';') with
    | some k => (l.take (j + k), l.drop (j + k + 1))
    | none => (l, [])
  else
    match l.findIdx? (fun c => c = ';') with
    | some i => (l.take i, l.drop (i + 1))
    | none => (l, [])

/-- Result record of `urlparse` (the fields the scraper reads, plus the
remaining components produced along the way). -/
structure UrlParts where
  scheme : List Char
  netloc : List Char
  path : List Char
  params : List Char
  query : List Char
  fragment : List Char
  deriving Repr, DecidableEq

/-- Embedding of `urllib.parse.urlparse` (see the section comment). -/
def urlparse (url : List Char) : UrlParts :=
  let u0 := removeUnsafe url
  let s := schemeSplit u0
  let scheme := s.1
  let n := if s.2.take 2 = ['/', '/'] then splitnetloc (s.2.drop 2) else ([], s.2)
  let netloc := n.1
  let f := if n.2.contains '#' then splitFirst '#' n.2 else (n.2, [])
  let fragment := f.2
  let q := if f.1.contains '?' then splitFirst '?' f.1 else (f.1, [])
  let query := q.2
  let p := if usesParams.contains scheme && q.1.contains ';'
           then splitparams q.1 else (q.1, [])
  ⟨scheme, netloc, p.1, p.2, query, fragment⟩

/-! ## Python `str.strip("/")` and `str.split("/")` -/

/-- Python `s.strip("/")`: remove leading and trailing `/` characters. -/
def stripSlashes (l : List Char) : List Char :=
  ((l.dropWhile (fun c => c = '/')).reverse.dropWhile (fun c => c = '/')).reverse

/-- Python `s.split("/")`: split at every `/`, keeping empty pieces
(`"".split("/") = [""]`). -/
def splitSlash : List Char → List (List Char)
  | [] => [[]]
  | c :: rest =>
    if c = '/' then [] :: splitSlash rest
    else
      match splitSlash rest with
      | [] => [[c]]
      | h :: t => (c :: h) :: t

/-! ## `awesome_scraper.py`: validity check and link extraction -/

/-- `BLACKLISTED_OWNERS` from `awesome_scraper.py`: GitHub path segments that
are platform sections, not repository owners. -/
def BLACKLISTED_OWNERS : List (List Char) :=
  [chars "features", chars "login", chars "explore", chars "marketplace",
   chars "topics", chars "collections", chars "enterprise", chars "solutions",
   chars "sponsors"]

/-- `is_valid_github_repo_url` from `awesome_scraper.py`: parse the URL,
strip and split its path at `/`, and accept when the netloc is `github.com`,
the path has exactly two parts, and the first part is not blacklisted. -/
def is_valid_github_repo_url (url : List Char) : Bool :=
  let parsed_url := urlparse url
  let path_parts := splitSlash (stripSlashes parsed_url.path)
  if parsed_url.netloc = chars "github.com" && path_parts.length = 2 then
    let owner := path_parts.headD []
    if !(BLACKLISTED_OWNERS.contains owner) then true else false
  else false

/-- The body of the list comprehension in `extract_github_links`: keep the
hrefs that pass `is_valid_github_repo_url`, and prefix
`https://github.com` to those that do not start with `http`
(`link["href"].startswith("http")` is `l.take 4 = chars "http"`). -/
def extract_github_links (hrefs : List (List Char)) : List (List Char) :=
  (hrefs.filter (fun h => is_valid_github_repo_url h)).map
    (fun h => if h.take 4 = chars "http" then h else chars "https://github.com" ++ h)

/-! ## Facts about `strip("/")` and `split("/")` needed for the validity claim -/

theorem head_dropWhile_false {p : Char → Bool} :
    ∀ (l : List Char) (c : Char), (l.dropWhile p).head? = some c → p c = false := by
  intro l
  induction l with
  | nil => simp
  | cons a t ih =>
    intro c h
    by_cases hp : p a = true
    · rw [List.dropWhile_cons_of_pos hp] at h
      exact ih c h
    · rw [List.dropWhile_cons_of_neg hp] at h
      simp only [List.head?_cons, Option.some.injEq] at h
      subst h
      simpa using hp

theorem stripSlashes_getLast (l : List Char) (c : Char) :
    (stripSlashes l).getLast? = some c → c ≠ '/' := by
  intro h
  unfold stripSlashes at h
  rw [List.getLast?_reverse] at h
  have := head_dropWhile_false _ _ h
  simpa using this

theorem stripSlashes_head (l : List Char) (c : Char) :
    (stripSlashes l).head? = some c → c ≠ '/' := by
  intro h
  unfold stripSlashes at h
  rw [List.head?_reverse] at h
  obtain ⟨t, ht⟩ := List.dropWhile_suffix
    (l := (l.dropWhile (fun c => c = '/')).reverse) (p := (fun c => c = '/'))
  set d := (l.dropWhile (fun c => c = '/')).reverse.dropWhile (fun c => c = '/') with hd
  have hdne : d ≠ [] := by
    intro hnil
    rw [hnil] at h
    simp at h
  have h1 : d.getLast? = ((l.dropWhile (fun c => c = '/')).reverse).getLast? := by
    rw [← ht]
    exact (List.getLast?_append_of_ne_nil _ hdne).symm
  rw [h1, List.getLast?_reverse] at h
  have := head_dropWhile_false _ _ h
  simpa using this

theorem splitSlash_ne_nil (l : List Char) : splitSlash l ≠ [] := by
  cases l with
  | nil => simp [splitSlash]
  | cons c rest =>
    unfold splitSlash
    by_cases hc : c = '/'
    · simp [hc]
    · simp only [if_neg hc]
      cases splitSlash rest <;> simp

theorem splitSlash_head_ne_nil (l : List Char) (hne : l ≠ [])
    (hh : l.head? ≠ some '/') (a : List Char) (t : List (List Char))
    (hs : splitSlash l = a :: t) : a ≠ [] := by
  cases l with
  | nil => exact absurd rfl hne
  | cons c rest =>
    have hc : c ≠ '/' := by simpa using hh
    unfold splitSlash at hs
    rw [if_neg hc] at hs
    revert hs
    cases splitSlash rest with
    | nil => intro hs; simp at hs; simp [hs.1.symm]
    | cons h2 t2 => intro hs; simp at hs; simp [hs.1.symm]

theorem splitSlash_getLast_ne_nil (l : List Char) :
    l ≠ [] → l.getLast? ≠ some '/' → (splitSlash l).getLast? ≠ some [] := by
  induction l with
  | nil => intro h; exact absurd rfl h
  | cons c rest ih =>
    intro _ hlast
    cases rest with
    | nil =>
      have hc : c ≠ '/' := by simpa using hlast
      simp [splitSlash, if_neg hc]
    | cons d rest2 =>
      have hlast2 : (d :: rest2).getLast? ≠ some '/' := by
        rwa [List.getLast?_cons_cons] at hlast
      have ihr := ih (by simp) hlast2
      unfold splitSlash
      by_cases hc : c = '/'
      · rw [if_pos hc]
        obtain ⟨s0, s1, hs⟩ := List.exists_cons_of_ne_nil (splitSlash_ne_nil (d :: rest2))
        rw [hs]
        rw [hs] at ihr
        rwa [List.getLast?_cons_cons]
      · rw [if_neg hc]
        obtain ⟨s0, s1, hs⟩ := List.exists_cons_of_ne_nil (splitSlash_ne_nil (d :: rest2))
        rw [hs]
        rw [hs] at ihr
        cases s1 with
        | nil => simp
        | cons s2 s3 =>
          rw [List.getLast?_cons_cons]
          rwa [List.getLast?_cons_cons] at ihr

theorem is_valid_characterization (url : List Char) :
    is_valid_github_repo_url url = true ↔
      ((urlparse url).netloc = chars "github.com" ∧
       (splitSlash (stripSlashes (urlparse url).path)).length = 2 ∧
       (splitSlash (stripSlashes (urlparse url).path)).headD [] ∉ BLACKLISTED_OWNERS) := by
  unfold is_valid_github_repo_url
  constructor
  · intro h
    by_cases h1 : (urlparse url).netloc = chars "github.com" ∧
        (splitSlash (stripSlashes (urlparse url).path)).length = 2
    · refine ⟨h1.1, h1.2, ?_⟩
      by_cases h2 : (splitSlash (stripSlashes (urlparse url).path)).headD []
          ∈ BLACKLISTED_OWNERS
      · exfalso
        rw [List.headD_eq_head?] at h2
        simp [h1.1, h1.2, h2] at h
      · exact h2
    · rw [Decidable.not_and_iff_or_not] at h1
      rcases h1 with h1 | h1 <;> simp [h1] at h
  · rintro ⟨h1, h2, h3⟩
    rw [List.headD_eq_head?] at h3
    simp [h1, h2, h3]

/-- C1: For every URL string, the validity check `is_valid_github_repo_url`
accepts it if and only if its parsed host (`urlparse(url).netloc`) is
`github.com`, its path stripped of leading/trailing slashes splits at `/`
into exactly two non-empty segments (owner, repo), and the first segment
is not one of the nine blacklisted platform section names. -/
theorem is_valid_iff_two_nonempty_segments (url : List Char) :
    is_valid_github_repo_url url = true ↔
      ((urlparse url).netloc = chars "github.com" ∧
       ∃ owner repo, splitSlash (stripSlashes (urlparse url).path) = [owner, repo] ∧
         owner ≠ [] ∧ repo ≠ [] ∧ owner ∉ BLACKLISTED_OWNERS) := by
  rw [is_valid_characterization]
  constructor
  · rintro ⟨h1, h2, h3⟩
    obtain ⟨a, b, hab⟩ := List.length_eq_two.mp h2
    refine ⟨h1, a, b, hab, ?_, ?_, ?_⟩
    · have hne : stripSlashes (urlparse url).path ≠ [] := by
        intro h0
        rw [h0] at hab
        simp [splitSlash] at hab
      have hh : (stripSlashes (urlparse url).path).head? ≠ some '/' := by
        intro hcon
        exact stripSlashes_head _ _ hcon rfl
      exact splitSlash_head_ne_nil _ hne hh a [b] hab
    · have hne : stripSlashes (urlparse url).path ≠ [] := by
        intro h0
        rw [h0] at hab
        simp [splitSlash] at hab
      have hl : (stripSlashes (urlparse url).path).getLast? ≠ some '/' := by
        intro hcon
        exact stripSlashes_getLast _ _ hcon rfl
      have := splitSlash_getLast_ne_nil _ hne hl
      rw [hab] at this
      simpa using this
    · rw [hab] at h3
      simpa using h3
  · rintro ⟨h1, owner, repo, hab, _, _, howner⟩
    refine ⟨h1, by simp [hab], ?_⟩
    rw [hab]
    simpa using howner

/-! ## Claims about the link extractor -/

theorem urlparse_prefixed_netloc (h : List Char) :
    ∃ rest, (urlparse (chars "https://github.com" ++ h)).netloc = 'g' :: rest := by
  have hlit : chars "https://github.com" =
      ['h','t','t','p','s',':','/','/','g','i','t','h','u','b','.','c','o','m'] := rfl
  rw [hlit]
  simp +decide [urlparse, removeUnsafe, schemeSplit, splitnetloc, isSchemeChar,
    lowerChar, List.filter_append, List.filter, List.findIdx?_cons, List.takeWhile]

/-- C10: the extractor applies `is_valid_github_repo_url` to the raw
hyperlink target before any normalization, so a target whose parsed host is
empty (e.g. a site-relative `/owner/repo`) is never included in the output,
and the prefixing branch can fire only for targets that already parse with
host `github.com` but do not start with `http`. -/
theorem extract_checks_raw_target (hrefs : List (List Char)) (t : List Char) :
    ((urlparse t).netloc = [] → t ∉ extract_github_links hrefs) ∧
    (is_valid_github_repo_url t = true → ¬(t.take 4 = chars "http") →
      (urlparse t).netloc = chars "github.com") := by
  constructor
  · intro hnet hmem
    unfold extract_github_links at hmem
    rw [List.mem_map] at hmem
    obtain ⟨h, hh, hft⟩ := hmem
    rw [List.mem_filter] at hh
    have hvalid := (is_valid_characterization h).mp hh.2
    by_cases hhttp : h.take 4 = chars "http"
    · rw [if_pos hhttp] at hft
      subst hft
      rw [hvalid.1] at hnet
      simp [chars] at hnet
    · rw [if_neg hhttp] at hft
      subst hft
      obtain ⟨rest, hrest⟩ := urlparse_prefixed_netloc h
      rw [hrest] at hnet
      simp at hnet
  · intro hvalid _
    exact ((is_valid_characterization t).mp hvalid).1

theorem extract_checks_raw_target_witness :
    (urlparse (chars "/torvalds/linux")).netloc = [] ∧
    chars "/torvalds/linux" ∉ extract_github_links [chars "/torvalds/linux"] :=
  ⟨by decide, (extract_checks_raw_target [chars "/torvalds/linux"]
      (chars "/torvalds/linux")).1 (by decide)⟩

/-- C8 counterexample: on a page (scraped from a source URL with host
`github.com`) containing the relative hyperlink target `/torvalds/linux`,
the target has no host, its normalization by prefixing the source host
(`https://github.com/torvalds/linux`) would pass the validity rule, yet the
extractor's output is empty: relative targets are never normalized nor
included, because validity is checked on the raw target. -/
theorem extract_drops_relative_target :
    (urlparse (chars "/torvalds/linux")).netloc = [] ∧
    is_valid_github_repo_url (chars "https://github.com/torvalds/linux") = true ∧
    extract_github_links [chars "/torvalds/linux"] = [] := by
  refine ⟨by decide, by decide, by decide⟩

/-- C8 amended: the prefixing branch uses the hard-coded literal
`https://github.com`, not the host of the source webpage, and it applies
only to targets that already pass the validity check on the raw string: for
every page, every hyperlink target that passes `is_valid_github_repo_url`
and does not start with `http` appears in the output prefixed with
`https://github.com`. -/
theorem extract_prefixes_literal_host (hrefs : List (List Char)) (h : List Char)
    (hmem : h ∈ hrefs) (hvalid : is_valid_github_repo_url h = true)
    (hhttp : ¬(h.take 4 = chars "http")) :
    chars "https://github.com" ++ h ∈ extract_github_links hrefs := by
  unfold extract_github_links
  rw [List.mem_map]
  refine ⟨h, ?_, ?_⟩
  · rw [List.mem_filter]
    exact ⟨hmem, hvalid⟩
  · rw [if_neg hhttp]

theorem extract_prefixes_literal_host_witness :
    chars "//github.com/a/b" ∈ [chars "//github.com/a/b"] ∧
    is_valid_github_repo_url (chars "//github.com/a/b") = true ∧
    ¬((chars "//github.com/a/b").take 4 = chars "http") ∧
    chars "https://github.com" ++ chars "//github.com/a/b" ∈
      extract_github_links [chars "//github.com/a/b"] :=
  ⟨by decide, by decide, by decide,
   extract_prefixes_literal_host [chars "//github.com/a/b"]
     (chars "//github.com/a/b") (by decide) (by decide) (by decide)⟩

/-! ## `get_github_repo_popularity`: the consecutive-failure budget loop -/

/-- A repository record: the three metrics stored by the fetcher. -/
structure RepoRecord where
  stars : Int
  forks : Int
  watchers : Int
  deriving Repr, DecidableEq

/-- Abstract per-URL outcome of one loop iteration of
`get_github_repo_popularity`: `success` is a 200 response (after the
optional rate-limit retry) carrying the three metrics; `failure` is any of
a non-200 status, a malformed URL shape (fewer than two path segments), or
an exception raised while processing the URL. -/
inductive Outcome where
  | success (stars forks watchers : Int)
  | failure
  deriving Repr, DecidableEq

def isSuccess : Outcome → Bool
  | .success _ _ _ => true
  | .failure => false

/-- Python dict assignment `d[k] = v`: overwrite in place when the key
exists, else append (insertion order is preserved). -/
def dictInsert (k : List Char) (v : RepoRecord)
    (m : List (List Char × RepoRecord)) : List (List Char × RepoRecord) :=
  if m.any (fun p => p.1 = k)
  then m.map (fun p => if p.1 = k then (k, v) else p)
  else m ++ [(k, v)]

/-- The `for url in github_urls` loop of `get_github_repo_popularity`, with
the consecutive-failure counter and the accumulated dict as state: on
success store the metrics under the URL and reset the counter to zero, on
failure increment it; after either, break out of the loop once the counter
has reached `max_failures`. -/
def fetchLoop (max_failures : Nat) :
    List (List Char × Outcome) → Nat → List (List Char × RepoRecord) →
      List (List Char × RepoRecord)
  | [], _, acc => acc
  | (url, o) :: rest, cf, acc =>
    match o with
    | .success s f w =>
      let acc' := dictInsert url ⟨s, f, w⟩ acc
      if max_failures ≤ 0 then acc' else fetchLoop max_failures rest 0 acc'
    | .failure =>
      if max_failures ≤ cf + 1 then acc
      else fetchLoop max_failures rest (cf + 1) acc

/-- `get_github_repo_popularity` from `awesome_scraper.py`: run the loop
from an empty dict with the counter at zero. -/
def get_github_repo_popularity (github_urls : List (List Char × Outcome))
    (max_failures : Nat) : List (List Char × RepoRecord) :=
  fetchLoop max_failures github_urls 0 []

/-- Spec-side description of the processed prefix, in the claim's words:
URLs are processed in order with a consecutive-failure counter that is set
to zero after each success and incremented by one after each failure, and
processing stops as soon as the counter reaches `N`. -/
def processedPrefix (N : Nat) :
    Nat → List (List Char × Outcome) → List (List Char × Outcome)
  | _, [] => []
  | cf, x :: rest =>
    let cf' := if isSuccess x.2 then 0 else cf + 1
    x :: (if N ≤ cf' then [] else processedPrefix N cf' rest)

/-- Spec-side accumulation: the dict of the records of the successes, in
processing order. -/
def recordsFrom (acc : List (List Char × RepoRecord))
    (l : List (List Char × Outcome)) : List (List Char × RepoRecord) :=
  l.foldl (fun a x =>
    match x.2 with
    | .success s f w => dictInsert x.1 ⟨s, f, w⟩ a
    | .failure => a) acc

theorem fetchLoop_eq_processedPrefix (N : Nat) :
    ∀ (l : List (List Char × Outcome)) (cf : Nat)
      (acc : List (List Char × RepoRecord)), cf < N →
      fetchLoop N l cf acc = recordsFrom acc (processedPrefix N cf l) := by
  intro l
  induction l with
  | nil => intro cf acc _; simp [fetchLoop, processedPrefix, recordsFrom]
  | cons x rest ih =>
    intro cf acc hcf
    obtain ⟨url, o⟩ := x
    cases o with
    | success s f w =>
      have hN : ¬(N ≤ 0) := by omega
      simp only [fetchLoop, processedPrefix, isSuccess, if_true,
        if_neg hN, recordsFrom, List.foldl_cons]
      exact ih 0 _ (by omega)
    | failure =>
      by_cases hb : N ≤ cf + 1
      · simp [fetchLoop, processedPrefix, isSuccess, hb, recordsFrom]
      · simp [fetchLoop, processedPrefix, isSuccess, hb, recordsFrom]
        exact ih (cf + 1) acc (by omega)

theorem processedPrefix_isPrefix (N : Nat) :
    ∀ (l : List (List Char × Outcome)) (cf : Nat),
      processedPrefix N cf l <+: l := by
  intro l
  induction l with
  | nil => intro cf; simp [processedPrefix]
  | cons x rest ih =>
    intro cf
    unfold processedPrefix
    by_cases hb : N ≤ (if isSuccess x.2 then 0 else cf + 1)
    · simp only [if_pos hb]
      exact List.cons_prefix_cons.mpr ⟨rfl, List.nil_prefix⟩
    · simp only [if_neg hb]
      exact List.cons_prefix_cons.mpr ⟨rfl, ih _⟩

/-- C2: for every input URL sequence with abstract per-URL outcomes and
every budget `N ≥ 1`, the fetcher processes a prefix of the URLs — the one
obtained by zeroing the consecutive-failure counter after each success,
incrementing it after each failure, and stopping as soon as it reaches `N`
— and returns exactly the records accumulated from the successes in that
prefix. -/
theorem fetcher_stops_at_budget (github_urls : List (List Char × Outcome))
    (N : Nat) (hN : 1 ≤ N) :
    get_github_repo_popularity github_urls N =
      recordsFrom [] (processedPrefix N 0 github_urls) ∧
    processedPrefix N 0 github_urls <+: github_urls :=
  ⟨fetchLoop_eq_processedPrefix N github_urls 0 [] (by omega),
   processedPrefix_isPrefix N github_urls 0⟩

theorem fetcher_stops_at_budget_witness :
    (1 : Nat) ≤ 2 ∧
    (get_github_repo_popularity
        [(chars "https://github.com/a/b", Outcome.success 1 2 3),
         (chars "https://github.com/c/d", Outcome.failure),
         (chars "https://github.com/e/f", Outcome.failure),
         (chars "https://github.com/g/h", Outcome.success 4 5 6)] 2 =
      recordsFrom [] (processedPrefix 2 0
        [(chars "https://github.com/a/b", Outcome.success 1 2 3),
         (chars "https://github.com/c/d", Outcome.failure),
         (chars "https://github.com/e/f", Outcome.failure),
         (chars "https://github.com/g/h", Outcome.success 4 5 6)]) ∧
     processedPrefix 2 0
        [(chars "https://github.com/a/b", Outcome.success 1 2 3),
         (chars "https://github.com/c/d", Outcome.failure),
         (chars "https://github.com/e/f", Outcome.failure),
         (chars "https://github.com/g/h", Outcome.success 4 5 6)] <+:
        [(chars "https://github.com/a/b", Outcome.success 1 2 3),
         (chars "https://github.com/c/d", Outcome.failure),
         (chars "https://github.com/e/f", Outcome.failure),
         (chars "https://github.com/g/h", Outcome.success 4 5 6)]) :=
  ⟨by decide,
   fetcher_stops_at_budget
     [(chars "https://github.com/a/b", Outcome.success 1 2 3),
      (chars "https://github.com/c/d", Outcome.failure),
      (chars "https://github.com/e/f", Outcome.failure),
      (chars "https://github.com/g/h", Outcome.success 4 5 6)] 2 (by decide)⟩

/-! ## `awesome_analyzer.py`: rows, filtering, sorting -/

/-- A row of the analyzer's table after `load_json_data`: the URL column
followed by the three metric columns. -/
structure Row where
  url : List Char
  stars : Int
  forks : Int
  watchers : Int
  deriving Repr, DecidableEq

/-- `filter_data` from `awesome_analyzer.py`: six sequential optional
filters; each supplied bound `df[df[col] >= v]` / `df[df[col] <= v]` is a
row filter, and an omitted (`None`) bound leaves the table unchanged. -/
def filter_data (df : List Row)
    (min_stars max_stars min_forks max_forks min_watchers max_watchers :
      Option Int) : List Row :=
  let df := match min_stars with
    | some v => df.filter (fun r => v ≤ r.stars)
    | none => df
  let df := match max_stars with
    | some v => df.filter (fun r => r.stars ≤ v)
    | none => df
  let df := match min_forks with
    | some v => df.filter (fun r => v ≤ r.forks)
    | none => df
  let df := match max_forks with
    | some v => df.filter (fun r => r.forks ≤ v)
    | none => df
  let df := match min_watchers with
    | some v => df.filter (fun r => v ≤ r.watchers)
    | none => df
  let df := match max_watchers with
    | some v => df.filter (fun r => r.watchers ≤ v)
    | none => df
  df

/-- One optional inclusive lower bound; `none` imposes no constraint. -/
def minOk (bound : Option Int) (x : Int) : Bool :=
  match bound with
  | some v => v ≤ x
  | none => true

/-- One optional inclusive upper bound; `none` imposes no constraint. -/
def maxOk (bound : Option Int) (x : Int) : Bool :=
  match bound with
  | some v => x ≤ v
  | none => true

/-- Spec-side row predicate: the logical AND of the six optional inclusive
bounds. -/
def rowSatisfies (min_stars max_stars min_forks max_forks min_watchers
    max_watchers : Option Int) (r : Row) : Bool :=
  maxOk max_watchers r.watchers && (minOk min_watchers r.watchers &&
    (maxOk max_forks r.forks && (minOk min_forks r.forks &&
      (maxOk max_stars r.stars && minOk min_stars r.stars))))

theorem filter_data_eq (df : List Row)
    (ms Ms mf Mf mw Mw : Option Int) :
    filter_data df ms Ms mf Mf mw Mw =
      df.filter (fun r => rowSatisfies ms Ms mf Mf mw Mw r) := by
  cases ms <;> cases Ms <;> cases mf <;> cases Mf <;> cases mw <;> cases Mw <;>
    simp [filter_data, rowSatisfies, minOk, maxOk, List.filter_filter,
      Bool.and_assoc]

/-- C4: `filter_data` keeps a row if and only if the row satisfies every
supplied bound as an inclusive comparison, an omitted bound imposing no
constraint — the six filters compose as the logical AND `rowSatisfies`. -/
theorem filter_keeps_iff_all_bounds (df : List Row)
    (ms Ms mf Mf mw Mw : Option Int) :
    filter_data df ms Ms mf Mf mw Mw =
      df.filter (fun r => rowSatisfies ms Ms mf Mf mw Mw r) :=
  filter_data_eq df ms Ms mf Mf mw Mw

/-- `b'` is at least as tight a lower bound as `b`: either `b` was omitted,
or both are supplied and `b'` is not smaller. -/
def TighterMin (b b' : Option Int) : Prop :=
  b = none ∨ ∃ x y, b = some x ∧ b' = some y ∧ x ≤ y

/-- `b'` is at least as tight an upper bound as `b`: either `b` was
omitted, or both are supplied and `b'` is not larger. -/
def TighterMax (b b' : Option Int) : Prop :=
  b = none ∨ ∃ x y, b = some x ∧ b' = some y ∧ y ≤ x

theorem minOk_of_tighter {b b' : Option Int} (h : TighterMin b b') (x : Int) :
    minOk b' x = true → minOk b x = true := by
  intro hx
  rcases h with h | ⟨u, v, hb, hb', huv⟩
  · simp [h, minOk]
  · subst hb; subst hb'
    simp [minOk] at hx ⊢
    omega

theorem maxOk_of_tighter {b b' : Option Int} (h : TighterMax b b') (x : Int) :
    maxOk b' x = true → maxOk b x = true := by
  intro hx
  rcases h with h | ⟨u, v, hb, hb', huv⟩
  · simp [h, maxOk]
  · subst hb; subst hb'
    simp [maxOk] at hx ⊢
    omega

theorem rowSatisfies_of_tighter {ms Ms mf Mf mw Mw ms' Ms' mf' Mf' mw' Mw' :
    Option Int} (h1 : TighterMin ms ms') (h2 : TighterMax Ms Ms')
    (h3 : TighterMin mf mf') (h4 : TighterMax Mf Mf')
    (h5 : TighterMin mw mw') (h6 : TighterMax Mw Mw') (r : Row) :
    rowSatisfies ms' Ms' mf' Mf' mw' Mw' r = true →
      rowSatisfies ms Ms mf Mf mw Mw r = true := by
  intro hx
  simp only [rowSatisfies, Bool.and_eq_true] at hx ⊢
  obtain ⟨x6, x5, x4, x3, x2, x1⟩ := hx
  exact ⟨maxOk_of_tighter h6 _ x6, minOk_of_tighter h5 _ x5,
    maxOk_of_tighter h4 _ x4, minOk_of_tighter h3 _ x3,
    maxOk_of_tighter h2 _ x2, minOk_of_tighter h1 _ x1⟩

/-- C5: filtering is monotone — when every one of the six optional bounds
of the second call is at least as tight as in the first call (raising a
min, lowering a max, or supplying a previously omitted bound), the second
call returns at most as many rows. -/
theorem filter_tightening_shrinks (df : List Row)
    (ms Ms mf Mf mw Mw ms' Ms' mf' Mf' mw' Mw' : Option Int)
    (h1 : TighterMin ms ms') (h2 : TighterMax Ms Ms')
    (h3 : TighterMin mf mf') (h4 : TighterMax Mf Mf')
    (h5 : TighterMin mw mw') (h6 : TighterMax Mw Mw') :
    (filter_data df ms' Ms' mf' Mf' mw' Mw').length ≤
      (filter_data df ms Ms mf Mf mw Mw).length := by
  rw [filter_data_eq, filter_data_eq]
  exact List.Sublist.length_le
    (List.monotone_filter_right df
      (fun r hr => rowSatisfies_of_tighter h1 h2 h3 h4 h5 h6 r hr))

theorem filter_tightening_shrinks_witness :
    TighterMin none (some 6) ∧
    (filter_data
        [⟨chars "https://github.com/a/b", 10, 2, 1⟩,
         ⟨chars "https://github.com/c/d", 5, 9, 0⟩]
        (some 6) none none none none none).length ≤
      (filter_data
        [⟨chars "https://github.com/a/b", 10, 2, 1⟩,
         ⟨chars "https://github.com/c/d", 5, 9, 0⟩]
        none none none none none none).length :=
  ⟨Or.inl rfl,
   filter_tightening_shrinks
     [⟨chars "https://github.com/a/b", 10, 2, 1⟩,
      ⟨chars "https://github.com/c/d", 5, 9, 0⟩]
     none none none none none none (some 6) none none none none none
     (Or.inl rfl) (Or.inl rfl) (Or.inl rfl) (Or.inl rfl) (Or.inl rfl)
     (Or.inl rfl)⟩

/-! ## `sort_data`: delegation to `DataFrame.sort_values` -/

/-- The sort keys accepted by the analyzer CLI. -/
inductive SortKey where
  | stars
  | forks
  | watchers
  deriving Repr, DecidableEq

/-- The column read by a sort key. -/
def keyOf : SortKey → Row → Int
  | .stars, r => r.stars
  | .forks, r => r.forks
  | .watchers, r => r.watchers

/-- Reorder the rows of `df` by a list of row indices (the argsort result
of the underlying sort). -/
def applyPerm (df : List Row) (idx : List Nat) : List Row :=
  idx.filterMap (fun i => df[i]?)

/-- Documented contract of `DataFrame.sort_values(by=key,
ascending=asc)`, which `sort_data` delegates to: the output is the input
rows reordered by an index permutation `idx` under which the chosen column
is non-decreasing (ascending) or non-increasing (descending).  The default
algorithm kind is `'quicksort'`, for which pandas documents no stability
guarantee, so `idx` is any permutation meeting the contract — the
underlying sort chooses it. -/
def SortValuesContract (k : SortKey) (asc : Bool) (df : List Row)
    (idx : List Nat) : Prop :=
  idx.Perm (List.range df.length) ∧
  ((applyPerm df idx).map (keyOf k)).Chain'
    (fun a b => if asc then a ≤ b else b ≤ a)

/-- `sort_data` from `awesome_analyzer.py`: return
`df.sort_values(by=sort_by, ascending=ascending)`, i.e. the rows reordered
by the permutation the underlying sort picked. -/
def sort_data (df : List Row) (sort_by : SortKey) (ascending : Bool)
    (idx : List Nat) : List Row :=
  applyPerm df idx

theorem filterMap_getElem_range {α : Type} (l : List α) :
    (List.range l.length).filterMap (fun i => l[i]?) = l := by
  induction l with
  | nil => simp
  | cons a t ih =>
    rw [List.length_cons, List.range_succ_eq_map]
    rw [List.filterMap_cons]
    simp only [List.getElem?_cons_zero]
    rw [List.filterMap_map]
    have hc : ((fun i => (a :: t)[i]?) ∘ Nat.succ) = (fun i => t[i]?) := by
      funext i
      simp
    rw [hc, ih]

/-- C3 counterexample: two distinct rows with equal `stars`; reversing
them satisfies the documented `sort_values` contract for the default
descending sort on `stars`, yet the tied rows do not keep their relative
input order — stability is not guaranteed by the code (pandas documents
the default `'quicksort'` kind as not stable). -/
theorem sort_tie_reversal_consistent_with_contract :
    SortValuesContract .stars false
      [⟨chars "https://github.com/a/b", 5, 0, 0⟩,
       ⟨chars "https://github.com/c/d", 5, 1, 1⟩] [1, 0] ∧
    sort_data
      [⟨chars "https://github.com/a/b", 5, 0, 0⟩,
       ⟨chars "https://github.com/c/d", 5, 1, 1⟩] .stars false [1, 0] =
      [⟨chars "https://github.com/c/d", 5, 1, 1⟩,
       ⟨chars "https://github.com/a/b", 5, 0, 0⟩] ∧
    (⟨chars "https://github.com/a/b", 5, 0, 0⟩ : Row) ≠
      ⟨chars "https://github.com/c/d", 5, 1, 1⟩ ∧
    keyOf .stars ⟨chars "https://github.com/a/b", 5, 0, 0⟩ =
      keyOf .stars ⟨chars "https://github.com/c/d", 5, 1, 1⟩ := by
  refine ⟨⟨by decide, by simp [applyPerm, keyOf, List.filterMap_cons, List.chain'_cons]⟩,
    by decide, by decide, by decide⟩

/-- C3 amended: for every table, sort key and direction, any output
meeting the `sort_values` contract is a permutation of the input rows
whose chosen field is non-increasing by default (descending) and
non-decreasing when ascending is requested; the relative order of rows
with equal key values is whatever the underlying (by default unstable)
quicksort produced and is not guaranteed to match the input order. -/
theorem sort_perm_and_monotone (df : List Row) (k : SortKey) (asc : Bool)
    (idx : List Nat) (h : SortValuesContract k asc df idx) :
    (sort_data df k asc idx).Perm df ∧
    ((sort_data df k asc idx).map (keyOf k)).Chain'
      (fun a b => if asc then a ≤ b else b ≤ a) := by
  refine ⟨?_, h.2⟩
  unfold sort_data applyPerm
  have hp := List.Perm.filterMap (fun i => df[i]?) h.1
  rwa [filterMap_getElem_range df] at hp

theorem sort_perm_and_monotone_witness :
    SortValuesContract .stars false
      [⟨chars "https://github.com/a/b", 5, 0, 0⟩,
       ⟨chars "https://github.com/c/d", 3, 1, 1⟩] [0, 1] ∧
    ((sort_data
        [⟨chars "https://github.com/a/b", 5, 0, 0⟩,
         ⟨chars "https://github.com/c/d", 3, 1, 1⟩] .stars false
        [0, 1]).Perm
      [⟨chars "https://github.com/a/b", 5, 0, 0⟩,
       ⟨chars "https://github.com/c/d", 3, 1, 1⟩] ∧
     ((sort_data
        [⟨chars "https://github.com/a/b", 5, 0, 0⟩,
         ⟨chars "https://github.com/c/d", 3, 1, 1⟩] .stars false
        [0, 1]).map (keyOf .stars)).Chain'
      (fun a b => if false then a ≤ b else b ≤ a)) :=
  ⟨⟨by decide, by simp [applyPerm, keyOf, List.filterMap_cons, List.chain'_cons]⟩,
   sort_perm_and_monotone
     [⟨chars "https://github.com/a/b", 5, 0, 0⟩,
      ⟨chars "https://github.com/c/d", 3, 1, 1⟩] .stars false [0, 1]
     ⟨by decide, by simp [applyPerm, keyOf, List.filterMap_cons, List.chain'_cons]⟩⟩

/-! ## `check_rate_limit` and the single rate-limit retry -/

/-- The rate-limit response headers read by `check_rate_limit`
(`X-RateLimit-Limit`, `X-RateLimit-Remaining`, `X-RateLimit-Reset`); a
field is `none` when the header is absent, in which case the code's
`headers.get` defaults apply (60, 0 and 0 respectively). -/
structure RateHeaders where
  limit : Option Int
  remaining : Option Int
  reset : Option Int
  deriving Repr, DecidableEq

/-- `check_rate_limit` from `awesome_scraper.py`: read the headers with
their defaults; when the remaining quota is zero, sleep
`max(reset_time - time.time(), 0)` seconds and return `True`, else return
`False`.  `now` stands for `time.time()` (an integer timestamp here).
The result is (rate-limited?, seconds slept). -/
def check_rate_limit (headers : RateHeaders) (now : Int) : Bool × Int :=
  let remaining := headers.remaining.getD 0
  let reset_time := headers.reset.getD 0
  if remaining = 0 then (true, max (reset_time - now) 0) else (false, 0)

/-- The request pattern around `check_rate_limit` in
`get_github_repo_popularity`: `requests.get(api_url)` once, and the same
`api_url` exactly once more when `check_rate_limit` returned `True`.
The result lists the issued request URLs in order. -/
def requestsIssued (api_url : List Char) (headers : RateHeaders)
    (now : Int) : List (List Char) :=
  if (check_rate_limit headers now).1 then [api_url, api_url] else [api_url]

/-- C7: when a response reports zero remaining quota the fetcher sleeps
`max(reset - now, 0)` seconds (never a negative duration) and re-issues
the same request exactly once; a response with non-zero remaining quota
triggers no sleep and no retry; and an iteration never issues a request
more than twice. -/
theorem rate_limit_single_retry (api_url : List Char) (h : RateHeaders)
    (now : Int) :
    (h.remaining = some 0 →
      requestsIssued api_url h now = [api_url, api_url] ∧
      (check_rate_limit h now).2 = max (h.reset.getD 0 - now) 0 ∧
      0 ≤ (check_rate_limit h now).2) ∧
    (∀ r : Int, h.remaining = some r → r ≠ 0 →
      requestsIssued api_url h now = [api_url] ∧
      (check_rate_limit h now).2 = 0) ∧
    (requestsIssued api_url h now).length ≤ 2 := by
  refine ⟨?_, ?_, ?_⟩
  · intro h0
    simp [requestsIssued, check_rate_limit, h0, le_max_right]
  · intro r hr hr0
    simp [requestsIssued, check_rate_limit, hr, hr0]
  · unfold requestsIssued
    split <;> simp

theorem rate_limit_single_retry_witness :
    ((RateHeaders.mk (some 60) (some 0) (some 100)).remaining = some 0) ∧
    (requestsIssued (chars "https://api.github.com/repos/a/b")
        (RateHeaders.mk (some 60) (some 0) (some 100)) 40 =
      [chars "https://api.github.com/repos/a/b",
       chars "https://api.github.com/repos/a/b"] ∧
     (check_rate_limit (RateHeaders.mk (some 60) (some 0) (some 100)) 40).2 =
      max ((RateHeaders.mk (some 60) (some 0) (some 100)).reset.getD 0 - 40) 0 ∧
     0 ≤ (check_rate_limit (RateHeaders.mk (some 60) (some 0) (some 100)) 40).2) :=
  ⟨rfl,
   (rate_limit_single_retry (chars "https://api.github.com/repos/a/b")
     (RateHeaders.mk (some 60) (some 0) (some 100)) 40).1 rfl⟩

/-! ## Record creation on a successful API response -/

/-- The record construction on a 200 response in
`get_github_repo_popularity`: `data.get("stargazers_count", 0)`,
`data.get("forks_count", 0)`, `data.get("watchers_count", 0)` — each
metric is the response body's value when the field is present, else 0.
JSON integers are signed, so a body field is an arbitrary `Int`. -/
def record_from_response (stargazers_count forks_count watchers_count :
    Option Int) : RepoRecord :=
  ⟨stargazers_count.getD 0, forks_count.getD 0, watchers_count.getD 0⟩

/-- C9 counterexample: a response body whose `stargazers_count` field is
the integer `-1` produces a record with negative `stars` — the code copies
body values unvalidated, so the record fields are not non-negative for
every response body. -/
theorem record_negative_on_negative_body :
    (record_from_response (some (-1)) none none).stars < 0 := by decide

/-- C9 amended: each metric of a record created on a successful response
equals the response body's value when present and 0 when absent; in
particular the three fields are non-negative whenever every metric value
present in the body is non-negative (and always when fields are absent). -/
theorem record_fields_nonneg (s f w : Option Int)
    (hs : ∀ x, s = some x → 0 ≤ x) (hf : ∀ x, f = some x → 0 ≤ x)
    (hw : ∀ x, w = some x → 0 ≤ x) :
    0 ≤ (record_from_response s f w).stars ∧
    0 ≤ (record_from_response s f w).forks ∧
    0 ≤ (record_from_response s f w).watchers ∧
    (s = none → (record_from_response s f w).stars = 0) ∧
    (f = none → (record_from_response s f w).forks = 0) ∧
    (w = none → (record_from_response s f w).watchers = 0) := by
  unfold record_from_response
  refine ⟨?_, ?_, ?_, ?_, ?_, ?_⟩
  · cases s with
    | none => simp
    | some x => simpa using hs x rfl
  · cases f with
    | none => simp
    | some x => simpa using hf x rfl
  · cases w with
    | none => simp
    | some x => simpa using hw x rfl
  · intro h0; simp [h0]
  · intro h0; simp [h0]
  · intro h0; simp [h0]

theorem record_fields_nonneg_witness :
    (∀ x : Int, (some 7 : Option Int) = some x → 0 ≤ x) ∧
    (0 ≤ (record_from_response (some 7) none (some 2)).stars ∧
     0 ≤ (record_from_response (some 7) none (some 2)).forks ∧
     0 ≤ (record_from_response (some 7) none (some 2)).watchers ∧
     ((some 7 : Option Int) = none →
       (record_from_response (some 7) none (some 2)).stars = 0) ∧
     ((none : Option Int) = none →
       (record_from_response (some 7) none (some 2)).forks = 0) ∧
     ((some 2 : Option Int) = none →
       (record_from_response (some 7) none (some 2)).watchers = 0)) :=
  ⟨fun x hx => by simp at hx; omega,
   record_fields_nonneg (some 7) none (some 2)
     (fun x hx => by simp at hx; omega)
     (fun x hx => by simp at hx)
     (fun x hx => by simp at hx; omega)⟩

/-! ## Snapshot persistence: `save_to_json` and `load_json_data`

`save_to_json` writes the URL→record dict with
`json.dump(data, f, indent=4, ensure_ascii=False)`; `load_json_data` reads
it back with `json.load` and converts it to a table with
`pd.DataFrame.from_dict(data, orient="index")`, `reset_index()` and a
rename of the former keys to a `url` column.  Both the serializer and the
scanner of the `json` stdlib module are embedded below, restricted to the
snapshot grammar (an object of objects of integers): `escChar`/`escString`
follow `json.encoder.ESCAPE_DCT` with `ensure_ascii=False`, and the parse
functions follow the `json.scanner` grammar (strings with the standard
escapes and `\uXXXX`, optionally signed integers, objects with
`,`-separated `"key": value` members and JSON whitespace). -/

/-- Lowercase hexadecimal digit, as `'{0:04x}'.format(i)` produces. -/
def hexDigitChar (n : Nat) : Char :=
  if n < 10 then Char.ofNat (48 + n) else Char.ofNat (87 + n)

/-- `json.encoder` escape of one character under `ensure_ascii=False`:
backslash, quote and the named control escapes, `\u00XX` for the other
control characters, every other character unchanged. -/
def escChar (c : Char) : List Char :=
  if c = '\\' then ['\\', '\\']
  else if c = '"' then ['\\', '"']
  else if c = '\n' then ['\\', 'n']
  else if c = '\t' then ['\\', 't']
  else if c = '\x0d' then ['\\', 'r']
  else if c = '\x08' then ['\\', 'b']
  else if c = '\x0c' then ['\\', 'f']
  else if c.toNat < 32 then
    ['\\', 'u', '0', '0', hexDigitChar (c.toNat / 16), hexDigitChar (c.toNat % 16)]
  else [c]

def escString (s : List Char) : List Char := (s.map escChar).flatten

/-- A JSON string literal: quote, escaped content, quote. -/
def printJsonString (s : List Char) : List Char :=
  '"' :: (escString s ++ ['"'])

/-- Decimal digits of `n`, most significant first (`repr` of a `Nat`). -/
def printNat (n : Nat) : List Char :=
  if n = 0 then ['0'] else (Nat.digits 10 n).reverse.map Nat.digitChar

/-- Python `repr` of an `int`: optional minus sign, then digits. -/
def printInt (z : Int) : List Char :=
  if z < 0 then '-' :: printNat z.natAbs else printNat z.toNat

/-- Four-space indentation steps of `json.dump(..., indent=4)`. -/
def ind1 : List Char := [' ', ' ', ' ', ' ']

def ind2 : List Char := [' ', ' ', ' ', ' ', ' ', ' ', ' ', ' ']

/-- One record value as `json.dump` lays it out at nesting depth 1. -/
def printRecord (v : RepoRecord) : List Char :=
  '{' :: '\n' :: (ind2 ++ printJsonString (chars "stars") ++ ':' :: ' ' ::
    (printInt v.stars ++ ',' :: '\n' ::
      (ind2 ++ printJsonString (chars "forks") ++ ':' :: ' ' ::
        (printInt v.forks ++ ',' :: '\n' ::
          (ind2 ++ printJsonString (chars "watchers") ++ ':' :: ' ' ::
            (printInt v.watchers ++ '\n' :: (ind1 ++ ['}'])))))))

/-- One top-level `"url": {...}` member at nesting depth 0. -/
def printEntry (e : List Char × RepoRecord) : List Char :=
  ind1 ++ printJsonString e.1 ++ ':' :: ' ' :: printRecord e.2

/-- The top-level members joined by `",\n"`. -/
def printEntries : List (List Char × RepoRecord) → List Char
  | [] => []
  | [e] => printEntry e
  | e :: rest => printEntry e ++ ',' :: '\n' :: printEntries rest

/-- `save_to_json` from `awesome_scraper.py`: the exact file contents
`json.dump(data, f, indent=4, ensure_ascii=False)` produces for the
URL→record dict (`json.dumps({}, indent=4)` is `"{}"`). -/
def save_to_json (data : List (List Char × RepoRecord)) : List Char :=
  if data = [] then ['{', '}']
  else '{' :: '\n' :: (printEntries data ++ '\n' :: ['}'])

/-- JSON whitespace accepted between tokens by `json.load`. -/
def isJsonWs (c : Char) : Bool := c = ' ' || c = '\t' || c = '\n' || c = '\x0d'

def skipWs (l : List Char) : List Char := l.dropWhile isJsonWs

def isDigitChar (c : Char) : Bool := c.isDigit

def digitVal (c : Char) : Nat := c.toNat - 48

/-- Value of a decimal digit string, most significant digit first. -/
def decodeDigits (ds : List Char) : Nat :=
  ds.foldl (fun a c => 10 * a + digitVal c) 0

def parseNat (l : List Char) : Option (Nat × List Char) :=
  let ds := l.takeWhile isDigitChar
  if ds = [] then none else some (decodeDigits ds, l.drop ds.length)

/-- An optionally `-`-signed JSON integer. -/
def parseInt (l : List Char) : Option (Int × List Char) :=
  if l.head? = some '-' then
    (parseNat (l.drop 1)).map (fun p => (-(p.1 : Int), p.2))
  else
    (parseNat l).map (fun p => ((p.1 : Int), p.2))

/-- Hexadecimal digit of either case. -/
def isHexDigitChar (c : Char) : Bool :=
  c.isDigit || ('a' ≤ c && c ≤ 'f') || ('A' ≤ c && c ≤ 'F')

/-- Value of a hexadecimal digit (either case). -/
def hexVal (c : Char) : Nat :=
  if c.isDigit then c.toNat - 48
  else if c.toNat < 97 then c.toNat - 55
  else c.toNat - 87

/-- The named single-character JSON escapes. -/
def escDecode : Char → Option Char
  | '"' => some '"'
  | '\\' => some '\\'
  | '/' => some '/'
  | 'b' => some '\x08'
  | 'f' => some '\x0c'
  | 'n' => some '\n'
  | 'r' => some '\x0d'
  | 't' => some '\t'
  | _ => none

/-- JSON string scanner, positioned after the opening quote; returns the
decoded content and the input after the closing quote. -/
def parseJsonString (l : List Char) : Option (List Char × List Char) :=
  match l with
  | [] => none
  | c :: r =>
    if c = '"' then some ([], r)
    else if c = '\\' then
      match r with
      | [] => none
      | e :: r2 =>
        if e = 'u' then
          match r2 with
          | h1 :: h2 :: h3 :: h4 :: r3 =>
            if isHexDigitChar h1 && isHexDigitChar h2 && isHexDigitChar h3 && isHexDigitChar h4
            then
              (parseJsonString r3).map (fun p =>
                (Char.ofNat (hexVal h1 * 4096 + hexVal h2 * 256 +
                  hexVal h3 * 16 + hexVal h4) :: p.1, p.2))
            else none
          | _ => none
        else
          match escDecode e with
          | some d => (parseJsonString r2).map (fun p => (d :: p.1, p.2))
          | none => none
    else (parseJsonString r).map (fun p => (c :: p.1, p.2))
termination_by l.length
decreasing_by all_goals simp <;> omega

/-- Python dict assignment for arbitrary values (`d[k] = v`): overwrite in
place when the key exists, else append. -/
def pyDictInsert {α : Type} (k : List Char) (v : α)
    (m : List (List Char × α)) : List (List Char × α) :=
  if m.any (fun p => p.1 = k)
  then m.map (fun p => if p.1 = k then (k, v) else p)
  else m ++ [(k, v)]

/-- Build a Python dict from a member list (later duplicate keys win), as
`json.load` does for each JSON object. -/
def pyDict {α : Type} (ms : List (List Char × α)) : List (List Char × α) :=
  ms.foldl (fun acc kv => pyDictInsert kv.1 kv.2 acc) []

/-- Members of an object whose values are integers, positioned after `{`
(and at least one member present); `fuel` bounds the member count. -/
def parseIntMembers : Nat → List Char → Option (List (List Char × Int) × List Char)
  | fuel, l =>
    match skipWs l with
    | '"' :: r =>
      match parseJsonString r with
      | some (k, r1) =>
        match skipWs r1 with
        | ':' :: r2 =>
          match parseInt (skipWs r2) with
          | some (v, r3) =>
            match skipWs r3 with
            | ',' :: r4 =>
              match fuel with
              | 0 => none
              | fuel' + 1 =>
                (parseIntMembers fuel' r4).map (fun p => ((k, v) :: p.1, p.2))
            | '}' :: r4 => some ([(k, v)], r4)
            | _ => none
          | none => none
        | _ => none
      | none => none
    | _ => none

/-- An object whose values are integers. -/
def parseIntObj (fuel : Nat) (l : List Char) :
    Option (List (List Char × Int) × List Char) :=
  match skipWs l with
  | '{' :: r =>
    match skipWs r with
    | '}' :: r2 => some ([], r2)
    | _ => parseIntMembers fuel r
  | _ => none

/-- Members of the top-level object, whose values are integer objects. -/
def parseSnapMembers : Nat → List Char →
    Option (List (List Char × List (List Char × Int)) × List Char)
  | fuel, l =>
    match skipWs l with
    | '"' :: r =>
      match parseJsonString r with
      | some (k, r1) =>
        match skipWs r1 with
        | ':' :: r2 =>
          match parseIntObj fuel r2 with
          | some (v, r3) =>
            match skipWs r3 with
            | ',' :: r4 =>
              match fuel with
              | 0 => none
              | fuel' + 1 =>
                (parseSnapMembers fuel' r4).map (fun p => ((k, v) :: p.1, p.2))
            | '}' :: r4 => some ([(k, v)], r4)
            | _ => none
          | none => none
        | _ => none
      | none => none
    | _ => none

/-- The top-level snapshot object. -/
def parseSnapObj (fuel : Nat) (l : List Char) :
    Option (List (List Char × List (List Char × Int)) × List Char) :=
  match skipWs l with
  | '{' :: r =>
    match skipWs r with
    | '}' :: r2 => some ([], r2)
    | _ => parseSnapMembers fuel r
  | _ => none

/-- `json.load` of a snapshot file: scan the object-of-objects-of-integers
grammar, require only whitespace after it, and build Python dicts (later
duplicate keys win) at both levels. -/
def json_load (text : List Char) :
    Option (List (List Char × List (List Char × Int))) :=
  match parseSnapObj text.length text with
  | some (ms, rest) =>
    if skipWs rest = []
    then some (pyDict (ms.map (fun kv => (kv.1, pyDict kv.2))))
    else none
  | none => none

/-- First binding of `k` (dict lookup; after `pyDict`, keys are unique). -/
def assocFind {α : Type} (k : List Char) :
    List (List Char × α) → Option α
  | [] => none
  | (k', v) :: rest => if k' = k then some v else assocFind k rest

/-- One row of `DataFrame.from_dict(..., orient="index")` followed by
`reset_index` and the rename to `url`: the former key plus the three
metric columns of the snapshot schema.  A missing metric field would
become a NaN float in pandas, which is outside this integer embedding and
yields `none`. -/
def rowOf (kv : List Char × List (List Char × Int)) : Option Row :=
  match assocFind (chars "stars") kv.2, assocFind (chars "forks") kv.2,
      assocFind (chars "watchers") kv.2 with
  | some s, some f, some w => some ⟨kv.1, s, f, w⟩
  | _, _, _ => none

/-- `load_json_data` from `awesome_analyzer.py`: `json.load` the file text
and convert the dict to the table of rows, one per top-level key in
insertion order. -/
def load_json_data (text : List Char) : Option (List Row) :=
  (json_load text).bind (fun m => m.mapM rowOf)

/-! ## Round-trip lemmas: numbers -/

theorem digitVal_digitChar (d : Nat) (hd : d < 10) :
    digitVal (Nat.digitChar d) = d := by
  interval_cases d <;> rfl

theorem isDigit_digitChar (d : Nat) (hd : d < 10) :
    isDigitChar (Nat.digitChar d) = true := by
  interval_cases d <;> rfl

theorem foldl_reverse_ofDigits (ds : List Nat) :
    ∀ a : Nat, ds.reverse.foldl (fun x d => 10 * x + d) a =
      a * 10 ^ ds.length + Nat.ofDigits 10 ds := by
  induction ds with
  | nil => intro a; simp
  | cons d t ih =>
    intro a
    rw [List.reverse_cons, List.foldl_append, ih]
    simp only [List.foldl_cons, List.foldl_nil, Nat.ofDigits_cons,
      List.length_cons]
    ring

theorem decodeDigits_printNat (n : Nat) : decodeDigits (printNat n) = n := by
  unfold printNat
  by_cases h0 : n = 0
  · simp [h0, decodeDigits, digitVal]
  · rw [if_neg h0]
    unfold decodeDigits
    rw [List.foldl_map]
    have hext : (Nat.digits 10 n).reverse.foldl
        (fun (a : Nat) (d : Nat) => 10 * a + digitVal (Nat.digitChar d)) 0 =
        (Nat.digits 10 n).reverse.foldl (fun (a : Nat) (d : Nat) => 10 * a + d) 0 := by
      apply List.foldl_ext
      intro a d hd
      rw [List.mem_reverse] at hd
      rw [digitVal_digitChar d (Nat.digits_lt_base (by norm_num) hd)]
    rw [hext, foldl_reverse_ofDigits, Nat.ofDigits_digits]
    simp

theorem printNat_all_digits (n : Nat) :
    ∀ c ∈ printNat n, isDigitChar c = true := by
  intro c hc
  unfold printNat at hc
  by_cases h0 : n = 0
  · rw [if_pos h0] at hc
    simp at hc
    subst hc
    rfl
  · rw [if_neg h0] at hc
    rw [List.mem_map] at hc
    obtain ⟨d, hd, hdc⟩ := hc
    rw [List.mem_reverse] at hd
    rw [← hdc]
    exact isDigit_digitChar d (Nat.digits_lt_base (by norm_num) hd)

theorem printNat_ne_nil (n : Nat) : printNat n ≠ [] := by
  unfold printNat
  by_cases h0 : n = 0
  · simp [h0]
  · rw [if_neg h0]
    simp [Nat.digits_ne_nil_iff_ne_zero, h0]

theorem parseNat_printNat (n : Nat) (r : List Char)
    (hr : ∀ c, r.head? = some c → isDigitChar c = false) :
    parseNat (printNat n ++ r) = some (n, r) := by
  have htw : (printNat n ++ r).takeWhile isDigitChar = printNat n := by
    rw [List.takeWhile_append_of_pos (printNat_all_digits n)]
    have : r.takeWhile isDigitChar = [] := by
      cases r with
      | nil => rfl
      | cons c t =>
        have := hr c rfl
        simp [List.takeWhile_cons, this]
    rw [this, List.append_nil]
  unfold parseNat
  rw [htw]
  rw [if_neg (printNat_ne_nil n)]
  rw [decodeDigits_printNat]
  congr 1
  congr 1
  rw [List.drop_left]

theorem printNat_head_digit (n : Nat) :
    ∀ c, (printNat n).head? = some c → isDigitChar c = true := by
  intro c hc
  apply printNat_all_digits n
  exact List.mem_of_mem_head? hc

theorem parseInt_printInt (z : Int) (r : List Char)
    (hr : ∀ c, r.head? = some c → isDigitChar c = false) :
    parseInt (printInt z ++ r) = some (z, r) := by
  unfold parseInt printInt
  by_cases hz : z < 0
  · rw [if_pos hz]
    simp only [List.cons_append, List.head?_cons, Option.some.injEq,
      List.drop_succ_cons, List.drop_zero]
    rw [if_pos trivial]
    rw [parseNat_printNat _ _ hr]
    simp only [Option.map_some']
    congr 2
    omega
  · rw [if_neg hz]
    obtain ⟨c, cs, hcons⟩ := List.exists_cons_of_ne_nil (printNat_ne_nil z.toNat)
    have hcdig : isDigitChar c = true := by
      apply printNat_head_digit z.toNat
      rw [hcons]
      rfl
    have hcne : ¬((printNat z.toNat ++ r).head? = some '-') := by
      rw [hcons]
      intro hcon
      simp only [List.cons_append, List.head?_cons, Option.some.injEq] at hcon
      subst hcon
      exact absurd hcdig (by decide)
    rw [if_neg hcne]
    rw [parseNat_printNat _ _ hr]
    simp only [Option.map_some']
    congr 2
    omega

/-! ## Round-trip lemmas: strings -/

theorem hexVal_hexDigitChar (d : Nat) (hd : d < 16) :
    hexVal (hexDigitChar d) = d := by
  interval_cases d <;> decide

theorem isHex_hexDigitChar (d : Nat) (hd : d < 16) :
    isHexDigitChar (hexDigitChar d) = true := by
  interval_cases d <;> decide

theorem parseJsonString_escString (s : List Char) (r : List Char) :
    parseJsonString (escString s ++ '"' :: r) = some (s, r) := by
  induction s with
  | nil =>
    show parseJsonString ('"' :: r) = some ([], r)
    unfold parseJsonString
    simp
  | cons c t ih =>
    have hesc : escString (c :: t) ++ '"' :: r =
        escChar c ++ (escString t ++ '"' :: r) := by
      simp [escString]
    rw [hesc]
    unfold escChar
    by_cases h1 : c = '\\'
    · subst h1
      simp only [if_pos rfl, List.cons_append]
      unfold parseJsonString
      simp [escDecode, ih]
    rw [if_neg h1]
    by_cases h2 : c = '"'
    · subst h2
      simp only [if_pos rfl, List.cons_append]
      unfold parseJsonString
      simp [escDecode, ih]
    rw [if_neg h2]
    by_cases h3 : c = '\n'
    · subst h3
      simp only [if_pos rfl, List.cons_append]
      unfold parseJsonString
      simp [escDecode, ih]
    rw [if_neg h3]
    by_cases h4 : c = '\t'
    · subst h4
      simp only [if_pos rfl, List.cons_append]
      unfold parseJsonString
      simp [escDecode, ih]
    rw [if_neg h4]
    by_cases h5 : c = '\x0d'
    · subst h5
      simp only [if_pos rfl, List.cons_append]
      unfold parseJsonString
      simp [escDecode, ih]
    rw [if_neg h5]
    by_cases h6 : c = '\x08'
    · subst h6
      simp only [if_pos rfl, List.cons_append]
      unfold parseJsonString
      simp [escDecode, ih]
    rw [if_neg h6]
    by_cases h7 : c = '\x0c'
    · subst h7
      simp only [if_pos rfl, List.cons_append]
      unfold parseJsonString
      simp [escDecode, ih]
    rw [if_neg h7]
    by_cases h8 : c.toNat < 32
    · rw [if_pos h8]
      have hhi : c.toNat / 16 < 16 := by omega
      have hlo : c.toNat % 16 < 16 := by omega
      simp only [List.cons_append, List.append_assoc]
      unfold parseJsonString
      rw [if_neg (show ¬('\\' : Char) = '"' by decide), if_pos rfl]
      simp only [if_pos (show ('u' : Char) = 'u' from rfl)]
      rw [if_pos (show (isHexDigitChar '0' && isHexDigitChar '0' &&
          isHexDigitChar (hexDigitChar (c.toNat / 16)) &&
          isHexDigitChar (hexDigitChar (c.toNat % 16))) = true by
        simp [isHex_hexDigitChar _ hhi, isHex_hexDigitChar _ hlo]
        decide)]
      rw [List.nil_append, ih]
      have hchar : Char.ofNat (hexVal '0' * 4096 + hexVal '0' * 256 +
          hexVal (hexDigitChar (c.toNat / 16)) * 16 +
          hexVal (hexDigitChar (c.toNat % 16))) = c := by
        rw [hexVal_hexDigitChar _ hhi, hexVal_hexDigitChar _ hlo]
        have h0 : hexVal '0' = 0 := by decide
        rw [h0]
        have he : 0 * 4096 + 0 * 256 + c.toNat / 16 * 16 + c.toNat % 16 =
            c.toNat := by omega
        rw [he, Char.ofNat_toNat]
      simp [hchar]
    · rw [if_neg h8]
      simp only [List.singleton_append]
      unfold parseJsonString
      rw [if_neg h2, if_neg h1]
      rw [ih]
      rfl

/-! ## Round-trip lemmas: whitespace and object members -/

theorem skipWs_cons (c : Char) (l : List Char) :
    skipWs (c :: l) = if isJsonWs c then skipWs l else c :: l := by
  by_cases h : isJsonWs c <;> simp [skipWs, List.dropWhile_cons, h]

theorem isJsonWs_eq_false_of_digit (c : Char) (h : isDigitChar c = true) :
    isJsonWs c = false := by
  by_contra hws
  rw [Bool.not_eq_false] at hws
  simp [isJsonWs] at hws
  rcases hws with ((h1 | h1) | h1) | h1 <;> (try subst h1) <;>
    exact absurd h (by decide)

theorem skipWs_printInt (z : Int) (Y : List Char) :
    skipWs (printInt z ++ Y) = printInt z ++ Y := by
  unfold printInt
  by_cases hz : z < 0
  · rw [if_pos hz]
    simp only [List.cons_append]
    rw [skipWs_cons]
    rw [if_neg (by decide)]
  · rw [if_neg hz]
    obtain ⟨c, cs, hcons⟩ :=
      List.exists_cons_of_ne_nil (printNat_ne_nil z.toNat)
    have hdig : isDigitChar c = true := by
      apply printNat_head_digit z.toNat
      rw [hcons]
      rfl
    rw [hcons]
    simp only [List.cons_append]
    rw [skipWs_cons]
    rw [if_neg (by simp [isJsonWs_eq_false_of_digit c hdig])]

theorem head_not_digit_of_skipWs (X : List Char) (d : Char) (X' : List Char)
    (h : skipWs X = d :: X') (hd : isDigitChar d = false) :
    ∀ c, X.head? = some c → isDigitChar c = false := by
  intro c hc
  cases X with
  | nil => simp at hc
  | cons c0 X0 =>
    simp only [List.head?_cons, Option.some.injEq] at hc
    rw [← hc]
    by_cases hws : isJsonWs c0 = true
    · by_contra hdig
      rw [Bool.not_eq_false] at hdig
      rw [isJsonWs_eq_false_of_digit c0 hdig] at hws
      exact absurd hws (by simp)
    · rw [skipWs_cons, if_neg hws] at h
      injection h with h1 _
      rw [h1]
      exact hd

theorem parseIntMembers_comma (fuel : Nat) (k : List Char) (z : Int)
    (l X X' : List Char)
    (hl : skipWs l = '"' ::
      (escString k ++ '"' :: ':' :: ' ' :: (printInt z ++ X)))
    (hX : skipWs X = ',' :: X') :
    parseIntMembers (fuel + 1) l =
      (parseIntMembers fuel X').map (fun p => ((k, z) :: p.1, p.2)) := by
  have hnd := head_not_digit_of_skipWs X ',' X' hX (by decide)
  conv_lhs => unfold parseIntMembers
  rw [hl]
  simp [parseJsonString_escString, skipWs_cons, skipWs_printInt, isJsonWs,
    parseInt_printInt z X hnd, hX]

theorem parseIntMembers_close (fuel : Nat) (k : List Char) (z : Int)
    (l X X' : List Char)
    (hl : skipWs l = '"' ::
      (escString k ++ '"' :: ':' :: ' ' :: (printInt z ++ X)))
    (hX : skipWs X = '}' :: X') :
    parseIntMembers fuel l = some ([(k, z)], X') := by
  have hnd := head_not_digit_of_skipWs X '}' X' hX (by decide)
  conv_lhs => unfold parseIntMembers
  rw [hl]
  simp [parseJsonString_escString, skipWs_cons, skipWs_printInt, isJsonWs,
    parseInt_printInt z X hnd, hX]

theorem memberLineShape (k : List Char) (z : Int) (X : List Char) :
    skipWs ('\n' :: (ind2 ++ (printJsonString k ++ ':' :: ' ' ::
        (printInt z ++ X)))) =
      '"' :: (escString k ++ '"' :: ':' :: ' ' :: (printInt z ++ X)) := by
  simp [skipWs_cons, isJsonWs, ind2, printJsonString, List.cons_append,
    List.append_assoc]

theorem parseIntObj_printRecord (v : RepoRecord) (r : List Char) (fuel : Nat) :
    parseIntObj (fuel + 2) (printRecord v ++ r) =
      some ([(chars "stars", v.stars), (chars "forks", v.forks),
             (chars "watchers", v.watchers)], r) := by
  have hw : parseIntMembers fuel
      ('\n' :: (ind2 ++ (printJsonString (chars "watchers") ++ ':' :: ' ' ::
        (printInt v.watchers ++ ('\n' :: (ind1 ++ '}' :: r)))))) =
      some ([(chars "watchers", v.watchers)], r) :=
    parseIntMembers_close fuel (chars "watchers") v.watchers _
      ('\n' :: (ind1 ++ '}' :: r)) r
      (memberLineShape (chars "watchers") v.watchers ('\n' :: (ind1 ++ '}' :: r)))
      (by simp [skipWs_cons, isJsonWs, ind1])
  have hf : parseIntMembers (fuel + 1)
      ('\n' :: (ind2 ++ (printJsonString (chars "forks") ++ ':' :: ' ' ::
        (printInt v.forks ++ ',' ::
          ('\n' :: (ind2 ++ (printJsonString (chars "watchers") ++ ':' :: ' ' ::
            (printInt v.watchers ++ ('\n' :: (ind1 ++ '}' :: r)))))))))) =
      (parseIntMembers fuel
        ('\n' :: (ind2 ++ (printJsonString (chars "watchers") ++ ':' :: ' ' ::
          (printInt v.watchers ++ ('\n' :: (ind1 ++ '}' :: r))))))).map
        (fun p => ((chars "forks", v.forks) :: p.1, p.2)) :=
    parseIntMembers_comma fuel (chars "forks") v.forks _
      (',' :: ('\n' :: (ind2 ++ (printJsonString (chars "watchers") ++ ':' :: ' ' ::
        (printInt v.watchers ++ ('\n' :: (ind1 ++ '}' :: r)))))))
      ('\n' :: (ind2 ++ (printJsonString (chars "watchers") ++ ':' :: ' ' ::
        (printInt v.watchers ++ ('\n' :: (ind1 ++ '}' :: r))))))
      (memberLineShape (chars "forks") v.forks _)
      (by rw [skipWs_cons, if_neg (by decide)])
  have hs : parseIntMembers (fuel + 1 + 1)
      ('\n' :: (ind2 ++ (printJsonString (chars "stars") ++ ':' :: ' ' ::
        (printInt v.stars ++ ',' ::
          ('\n' :: (ind2 ++ (printJsonString (chars "forks") ++ ':' :: ' ' ::
            (printInt v.forks ++ ',' ::
              ('\n' :: (ind2 ++ (printJsonString (chars "watchers") ++ ':' :: ' ' ::
                (printInt v.watchers ++ ('\n' :: (ind1 ++ '}' :: r)))))))))))))) =
      (parseIntMembers (fuel + 1)
        ('\n' :: (ind2 ++ (printJsonString (chars "forks") ++ ':' :: ' ' ::
          (printInt v.forks ++ ',' ::
            ('\n' :: (ind2 ++ (printJsonString (chars "watchers") ++ ':' :: ' ' ::
              (printInt v.watchers ++ ('\n' :: (ind1 ++ '}' :: r))))))))))).map
        (fun p => ((chars "stars", v.stars) :: p.1, p.2)) :=
    parseIntMembers_comma (fuel + 1) (chars "stars") v.stars _
      (',' :: ('\n' :: (ind2 ++ (printJsonString (chars "forks") ++ ':' :: ' ' ::
        (printInt v.forks ++ ',' ::
          ('\n' :: (ind2 ++ (printJsonString (chars "watchers") ++ ':' :: ' ' ::
            (printInt v.watchers ++ ('\n' :: (ind1 ++ '}' :: r)))))))))))
      ('\n' :: (ind2 ++ (printJsonString (chars "forks") ++ ':' :: ' ' ::
        (printInt v.forks ++ ',' ::
          ('\n' :: (ind2 ++ (printJsonString (chars "watchers") ++ ':' :: ' ' ::
            (printInt v.watchers ++ ('\n' :: (ind1 ++ '}' :: r))))))))))
      (memberLineShape (chars "stars") v.stars _)
      (by rw [skipWs_cons, if_neg (by decide)])
  have hshape : printRecord v ++ r =
      '{' :: ('\n' :: (ind2 ++ (printJsonString (chars "stars") ++ ':' :: ' ' ::
        (printInt v.stars ++ ',' ::
          ('\n' :: (ind2 ++ (printJsonString (chars "forks") ++ ':' :: ' ' ::
            (printInt v.forks ++ ',' ::
              ('\n' :: (ind2 ++ (printJsonString (chars "watchers") ++ ':' :: ' ' ::
                (printInt v.watchers ++ ('\n' :: (ind1 ++ '}' :: r)))))))))))))) := by
    simp [printRecord, List.cons_append, List.append_assoc]
  unfold parseIntObj
  rw [hshape]
  rw [skipWs_cons, if_neg (by decide)]
  have hnat : fuel + 2 = fuel + 1 + 1 := rfl
  simp only [hnat, memberLineShape, hs, hf, hw]
  rfl

/-- The member list of a printed record, as the scanner returns it. -/
def recFields (v : RepoRecord) : List (List Char × Int) :=
  [(chars "stars", v.stars), (chars "forks", v.forks),
   (chars "watchers", v.watchers)]

theorem parseIntObj_ws (fuel : Nat) (l : List Char) :
    parseIntObj fuel (' ' :: l) = parseIntObj fuel l := by
  unfold parseIntObj
  rw [skipWs_cons, if_pos (by decide)]

theorem parseSnapMembers_comma (fuel : Nat) (k : List Char) (v : RepoRecord)
    (l X X' : List Char)
    (hl : skipWs l = '"' ::
      (escString k ++ '"' :: ':' :: ' ' :: (printRecord v ++ X)))
    (hX : skipWs X = ',' :: X') :
    parseSnapMembers (fuel + 2) l =
      (parseSnapMembers (fuel + 1) X').map
        (fun p => ((k, recFields v) :: p.1, p.2)) := by
  conv_lhs => unfold parseSnapMembers
  rw [hl]
  simp only [parseJsonString_escString]
  rw [skipWs_cons, if_neg (by decide)]
  simp only [parseIntObj_ws, parseIntObj_printRecord v X fuel, hX, recFields]

theorem parseSnapMembers_close (fuel : Nat) (k : List Char) (v : RepoRecord)
    (l X X' : List Char)
    (hl : skipWs l = '"' ::
      (escString k ++ '"' :: ':' :: ' ' :: (printRecord v ++ X)))
    (hX : skipWs X = '}' :: X') :
    parseSnapMembers (fuel + 2) l = some ([(k, recFields v)], X') := by
  conv_lhs => unfold parseSnapMembers
  rw [hl]
  simp only [parseJsonString_escString]
  rw [skipWs_cons, if_neg (by decide)]
  simp only [parseIntObj_ws, parseIntObj_printRecord v X fuel, hX, recFields]

theorem entryLineShape (k : List Char) (v : RepoRecord) (Y : List Char) :
    skipWs ('\n' :: (printEntry (k, v) ++ Y)) =
      '"' :: (escString k ++ '"' :: ':' :: ' ' :: (printRecord v ++ Y)) := by
  simp [printEntry, skipWs_cons, isJsonWs, ind1, printJsonString,
    List.cons_append, List.append_assoc]

theorem parseSnapMembers_printEntries :
    ∀ (m : List (List Char × RepoRecord)) (g : Nat), m ≠ [] →
      parseSnapMembers (m.length + 1 + g)
        ('\n' :: (printEntries m ++ '\n' :: ['}'])) =
      some (m.map (fun e => (e.1, recFields e.2)), []) := by
  intro m
  induction m with
  | nil => intro g h; exact absurd rfl h
  | cons e rest ih =>
    intro g _
    obtain ⟨k, v⟩ := e
    cases rest with
    | nil =>
      have hfe : ([((k, v) : List Char × RepoRecord)]).length + 1 + g =
          g + 2 := by simp; omega
      rw [hfe]
      show parseSnapMembers (g + 2)
          ('\n' :: (printEntry (k, v) ++ '\n' :: ['}'])) = _
      rw [parseSnapMembers_close g k v _ ('\n' :: ['}']) []
        (entryLineShape k v ('\n' :: ['}']))
        (by rw [skipWs_cons, if_pos (by decide)]
            rw [skipWs_cons, if_neg (by decide)])]
      simp
    | cons e2 rest2 =>
      have hfe : (((k, v) : List Char × RepoRecord) :: e2 :: rest2).length +
          1 + g = ((e2 :: rest2).length + g) + 2 := by simp; omega
      rw [hfe]
      have hpe : printEntries ((k, v) :: e2 :: rest2) =
          printEntry (k, v) ++ ',' :: '\n' :: printEntries (e2 :: rest2) := rfl
      rw [hpe]
      simp only [List.append_assoc, List.cons_append]
      rw [parseSnapMembers_comma ((e2 :: rest2).length + g) k v _
        (',' :: ('\n' :: (printEntries (e2 :: rest2) ++ '\n' :: ['}'])))
        ('\n' :: (printEntries (e2 :: rest2) ++ '\n' :: ['}']))
        (entryLineShape k v _)
        (by rw [skipWs_cons, if_neg (by decide)])]
      have hfe2 : (e2 :: rest2).length + g + 1 =
          (e2 :: rest2).length + 1 + g := by omega
      rw [hfe2]
      rw [ih g (by simp)]
      simp

theorem printEntries_length_ge (m : List (List Char × RepoRecord)) :
    m.length ≤ (printEntries m).length := by
  induction m with
  | nil => simp [printEntries]
  | cons e rest ih =>
    cases rest with
    | nil => simp [printEntries, printEntry, ind1]
    | cons e2 rest2 =>
      have h : printEntries (e :: e2 :: rest2) =
          printEntry e ++ ',' :: '\n' :: printEntries (e2 :: rest2) := rfl
      rw [h]
      simp only [List.length_append, List.length_cons] at ih ⊢
      omega

theorem foldl_pyDictInsert {α : Type} :
    ∀ (l acc : List (List Char × α)),
      ((acc ++ l).map Prod.fst).Nodup →
      l.foldl (fun a kv => pyDictInsert kv.1 kv.2 a) acc = acc ++ l := by
  intro l
  induction l with
  | nil => intro acc _; simp
  | cons kv t ih =>
    intro acc hnd
    have hnotin : kv.1 ∉ acc.map Prod.fst := by
      intro hmem
      rw [List.map_append, List.nodup_append] at hnd
      exact hnd.2.2 hmem
        (List.mem_map_of_mem Prod.fst (List.mem_cons_self kv t))
    have hany : ¬(acc.any (fun p => p.1 = kv.1) = true) := by
      simp only [List.any_eq_true, decide_eq_true_eq, not_exists, not_and]
      intro p hp hcon
      exact hnotin (by rw [← hcon]; exact List.mem_map_of_mem Prod.fst hp)
    have hins : pyDictInsert kv.1 kv.2 acc = acc ++ [kv] := by
      unfold pyDictInsert
      rw [if_neg hany]
    simp only [List.foldl_cons, hins]
    have := ih (acc ++ [kv]) (by simpa using hnd)
    rw [this]
    simp

theorem pyDict_nodup_id {α : Type} (l : List (List Char × α))
    (h : (l.map Prod.fst).Nodup) : pyDict l = l := by
  unfold pyDict
  have := foldl_pyDictInsert l [] (by simpa using h)
  simpa using this

theorem pyDict_recFields (v : RepoRecord) :
    pyDict (recFields v) = recFields v := by
  apply pyDict_nodup_id
  simp only [recFields, List.map_cons, List.map_nil]
  decide

theorem rowOf_recFields (k : List Char) (v : RepoRecord) :
    rowOf (k, recFields v) = some (Row.mk k v.stars v.forks v.watchers) := by
  have h1 : assocFind (chars "stars") (recFields v) = some v.stars := by
    simp [recFields, assocFind]
  have h2 : assocFind (chars "forks") (recFields v) = some v.forks := by
    simp +decide [recFields, assocFind]
  have h3 : assocFind (chars "watchers") (recFields v) = some v.watchers := by
    simp +decide [recFields, assocFind]
  simp [rowOf, h1, h2, h3]

theorem mapM_rowOf (m : List (List Char × RepoRecord)) :
    (m.map (fun e => (e.1, recFields e.2))).mapM rowOf =
      some (m.map (fun e => Row.mk e.1 e.2.stars e.2.forks e.2.watchers)) := by
  induction m with
  | nil => rfl
  | cons e t ih =>
    simp only [List.map_cons, List.mapM_cons, ih, rowOf_recFields e.1 e.2]
    rfl

theorem parseSnapObj_print (m : List (List Char × RepoRecord)) (g : Nat)
    (hm : m ≠ []) :
    parseSnapObj (m.length + 1 + g)
      ('{' :: '\n' :: (printEntries m ++ '\n' :: ['}'])) =
      some (m.map (fun e => (e.1, recFields e.2)), []) := by
  obtain ⟨e, rest, rfl⟩ := List.exists_cons_of_ne_nil hm
  obtain ⟨k, v⟩ := e
  unfold parseSnapObj
  rw [skipWs_cons, if_neg (by decide)]
  cases rest with
  | nil =>
    show (match skipWs ('\n' :: (printEntry (k, v) ++ '\n' :: ['}'])) with
      | '}' :: r2 => some ([], r2)
      | _ => parseSnapMembers ([((k, v) : List Char × RepoRecord)].length + 1 + g)
          ('\n' :: (printEntry (k, v) ++ '\n' :: ['}']))) = _
    rw [entryLineShape k v ('\n' :: ['}'])]
    exact parseSnapMembers_printEntries [(k, v)] g (by simp)
  | cons e2 rest2 =>
    have hpe : printEntries ((k, v) :: e2 :: rest2) ++ '\n' :: ['}'] =
        printEntry (k, v) ++ ',' ::
          ('\n' :: (printEntries (e2 :: rest2) ++ '\n' :: ['}'])) := by
      show (printEntry (k, v) ++ ',' :: '\n' :: printEntries (e2 :: rest2)) ++
          '\n' :: ['}'] = _
      simp [List.append_assoc]
    rw [hpe]
    show (match skipWs ('\n' :: (printEntry (k, v) ++ ',' :: '\n' ::
        (printEntries (e2 :: rest2) ++ ['\n', '}']))) with
      | '}' :: r2 => some ([], r2)
      | _ => parseSnapMembers
          ((((k, v) : List Char × RepoRecord) :: e2 :: rest2).length + 1 + g)
          ('\n' :: (printEntry (k, v) ++ ',' :: '\n' ::
            (printEntries (e2 :: rest2) ++ ['\n', '}'])))) = _
    rw [entryLineShape k v
      (',' :: '\n' :: (printEntries (e2 :: rest2) ++ ['\n', '}']))]
    have hE := parseSnapMembers_printEntries ((k, v) :: e2 :: rest2) g (by simp)
    rw [show '\n' :: (printEntries ((k, v) :: e2 :: rest2) ++ '\n' :: ['}']) =
        '\n' :: (printEntry (k, v) ++ ',' :: '\n' ::
          (printEntries (e2 :: rest2) ++ ['\n', '}']))
      from by rw [hpe]] at hE
    exact hE

/-- C6: for every URL→record mapping (distinct keys, as in a Python dict),
writing it with the snapshot writer `save_to_json` and loading the
resulting file text with the snapshot loader `load_json_data` yields the
table with exactly the same URL-to-triple associations — one row per key,
in order, with identical stars/forks/watchers values. -/
theorem save_load_roundtrip (m : List (List Char × RepoRecord))
    (hkeys : (m.map Prod.fst).Nodup) :
    load_json_data (save_to_json m) =
      some (m.map (fun e => Row.mk e.1 e.2.stars e.2.forks e.2.watchers)) := by
  by_cases hm : m = []
  · subst hm
    rfl
  · unfold save_to_json
    rw [if_neg hm]
    unfold load_json_data json_load
    have hlen : m.length + 1 ≤
        ('{' :: '\n' :: (printEntries m ++ '\n' :: ['}'])).length := by
      have := printEntries_length_ge m
      simp only [List.length_cons, List.length_append]
      omega
    obtain ⟨g, hg⟩ := Nat.exists_eq_add_of_le hlen
    rw [hg]
    rw [parseSnapObj_print m g hm]
    have hmaps : (m.map (fun e => (e.1, recFields e.2))).map
        (fun kv => (kv.1, pyDict kv.2)) =
        m.map (fun e => (e.1, recFields e.2)) := by
      rw [List.map_map]
      apply List.map_congr_left
      intro e _
      simp [Function.comp, pyDict_recFields]
    have houter : pyDict (m.map (fun e => (e.1, recFields e.2))) =
        m.map (fun e => (e.1, recFields e.2)) := by
      apply pyDict_nodup_id
      rw [List.map_map]
      simpa [Function.comp] using hkeys
    simp only [skipWs, List.dropWhile_nil, if_pos rfl, hmaps, houter,
      if_true, Option.bind_eq_bind, Option.some_bind]
    exact mapM_rowOf m

theorem save_load_roundtrip_witness :
    (([(chars "https://github.com/a/b", RepoRecord.mk 10 2 1),
       (chars "https://github.com/c/d", RepoRecord.mk 5 9 0)].map
        Prod.fst).Nodup) ∧
    load_json_data (save_to_json
        [(chars "https://github.com/a/b", RepoRecord.mk 10 2 1),
         (chars "https://github.com/c/d", RepoRecord.mk 5 9 0)]) =
      some [Row.mk (chars "https://github.com/a/b") 10 2 1,
            Row.mk (chars "https://github.com/c/d") 5 9 0] :=
  ⟨by decide,
   save_load_roundtrip
     [(chars "https://github.com/a/b", RepoRecord.mk 10 2 1),
      (chars "https://github.com/c/d", RepoRecord.mk 5 9 0)] (by decide)⟩
